import Mathlib

/-!
Shallow embedding of `usd_cop_scraper.py` (josepdevbi/web-scraper-automatico).

The embedding covers the row-extraction filter of `scrape_with_selenium`
(lines 75-91), the parse-and-expand pipeline `process_and_format_data`
(lines 108-177), and the control flow of the export routine `save_data`
(lines 179-290).  Python built-ins used by that code (`int`, `float`,
`str.split`, `str.strip`, `str.lower`, `str.replace`, `datetime`,
`timedelta`, `strftime`) are modelled below over `List Char` / `Nat` /
`Int` / `ℚ`.

Modelling notes, recorded once here:
* `float` is modelled for finite decimal literals (optional sign, digits,
  optional fractional part, optional exponent).  CPython additionally
  accepts underscore digit separators and the literals `inf`/`infinity`/
  `nan`; those never occur in the scraped numeric cells and have no finite
  rational value, so they are outside the model.  `int` likewise is
  modelled without underscore separators.
* `str.strip` / `float`'s and `int`'s whitespace stripping are modelled by
  dropping ASCII whitespace from both ends (Python also strips some rarer
  Unicode whitespace).
* `str.lower` is modelled by ASCII case folding, which covers the weekday
  labels involved.
* `datetime` validates `1 <= year <= 9999`, `1 <= month <= 12` and
  `1 <= day <= days-in-month` and raises otherwise; `full_date +
  timedelta(days=n)` is modelled by total day-by-day rollover.  (CPython
  would raise `OverflowError` past 9999-12-31; the scraper's year comes
  from `datetime.now()`, far from that bound.)
-/

namespace UsdCop

/-- Characters surviving `str.strip()`: the list with leading and trailing
whitespace removed. -/
def trimChars (cs : List Char) : List Char :=
  ((cs.dropWhile Char.isWhitespace).reverse.dropWhile Char.isWhitespace).reverse

/-- Model of Python `str.strip()` (lines 80-84). -/
def pyStrip (s : String) : String :=
  String.mk (trimChars s.toList)

/-- Model of Python `str.lower()` (line 147), ASCII case folding. -/
def pyLower (s : String) : String :=
  String.mk (s.toList.map Char.toLower)

/-- Accumulator-passing worker for `pySplit`. -/
def splitOnCharAux (sep : Char) : List Char → List Char → List (List Char)
  | [], acc => [acc.reverse]
  | c :: t, acc =>
    if c = sep then acc.reverse :: splitOnCharAux sep t []
    else splitOnCharAux sep t (c :: acc)

/-- Model of Python `s.split(sep)` for a one-character separator (line
122: `row['Date'].split('/')`): the fields between the separator
occurrences, so `""` gives `[""]` and a lone separator gives `["", ""]`. -/
def pySplit (s : String) (sep : Char) : List String :=
  (splitOnCharAux sep s.toList []).map String.mk

/-- Numeric value of a run of decimal digit characters, most significant
first (the usual positional fold). -/
def digitsVal (cs : List Char) : Nat :=
  cs.foldl (fun a c => a * 10 + (c.toNat - '0'.toNat)) 0

/-- `cs` is a nonempty run of decimal digits. -/
def allDigits (cs : List Char) : Bool :=
  !cs.isEmpty && cs.all Char.isDigit

/-- Model of Python `int(s)` (line 124-125: `int(date_parts[i])`): strip
whitespace, optional sign, then a nonempty run of digits. -/
def pyInt (s : String) : Option Int :=
  match trimChars s.toList with
  | '-' :: cs => if allDigits cs then some (-(digitsVal cs : Int)) else none
  | '+' :: cs => if allDigits cs then some (digitsVal cs : Int) else none
  | cs => if allDigits cs then some (digitsVal cs : Int) else none

/-- Exponent part of a float literal, after the `e`/`E`: optional sign and
a nonempty run of digits. -/
def parseExpPart (cs : List Char) : Option Int :=
  match cs with
  | '-' :: ds => if allDigits ds then some (-(digitsVal ds : Int)) else none
  | '+' :: ds => if allDigits ds then some (digitsVal ds : Int) else none
  | ds => if allDigits ds then some (digitsVal ds : Int) else none

/-- Unsigned body of a Python float literal: `digits [. digits] [(e|E)
exponent]` with at least one digit in the mantissa.  The result is the
literal's value presented as mantissa and powers-of-ten scale: the body
denotes `m * 10 ^ scale` (the mantissa digits before and after the point
read as one integer, the point and the exponent folded into the scale). -/
def pyFloatCore (cs : List Char) : Option (Nat × Int) :=
  let ip := cs.takeWhile Char.isDigit
  let r1 := cs.dropWhile Char.isDigit
  let fp := match r1 with
    | '.' :: t => t.takeWhile Char.isDigit
    | _ => []
  let r2 := match r1 with
    | '.' :: t => t.dropWhile Char.isDigit
    | _ => r1
  if ip.isEmpty && fp.isEmpty then none
  else
    let m := digitsVal (ip ++ fp)
    match r2 with
    | [] => some (m, -(fp.length : Int))
    | 'e' :: t => (parseExpPart t).map (fun e => (m, e - (fp.length : Int)))
    | 'E' :: t => (parseExpPart t).map (fun e => (m, e - (fp.length : Int)))
    | _ => none

/-- The rational value `(-1)^neg * m * 10^scale` of a decoded float
literal, built with `mkRat` so that it evaluates by kernel reduction. -/
def decValue (neg : Bool) (m : Nat) (scale : Int) : ℚ :=
  let n : Int := if neg then -(m : Int) else (m : Int)
  if 0 ≤ scale then mkRat (n * ((10 : Nat) ^ scale.toNat : Nat)) 1
  else mkRat n ((10 : Nat) ^ (-scale).toNat)

/-- Model of Python `float(s)` (lines 132-134): strip whitespace, optional
sign, then an unsigned float body.  The value is the literal's exact
decimal value as a rational (CPython then rounds it to the nearest binary
double; that rounding is value-preserving on the claims checked here and
is not modelled). -/
def pyFloat (s : String) : Option ℚ :=
  match trimChars s.toList with
  | '-' :: cs => (pyFloatCore cs).map (fun me => decValue true me.1 me.2)
  | '+' :: cs => (pyFloatCore cs).map (fun me => decValue false me.1 me.2)
  | cs => (pyFloatCore cs).map (fun me => decValue false me.1 me.2)

/-- Model of `s.replace(',', '')` (lines 132-134): drop every comma. -/
def stripCommas (s : String) : String :=
  String.mk (s.toList.filter (fun c => c ≠ ','))

/-- A Gregorian calendar date as held by a Python `datetime` (time-of-day
components are never used by the scraper). -/
structure PyDate where
  year : Nat
  month : Nat
  day : Nat
deriving DecidableEq, Repr

/-- Gregorian leap-year rule, as used by `datetime`. -/
def isLeap (y : Nat) : Bool :=
  (y % 4 == 0 && y % 100 != 0) || (y % 400 == 0)

/-- Number of days in a month of a given year. -/
def daysInMonth (y m : Nat) : Nat :=
  if m = 2 then (if isLeap y then 29 else 28)
  else if m = 4 ∨ m = 6 ∨ m = 9 ∨ m = 11 then 30
  else 31

/-- Model of the `datetime(current_year, month, day)` constructor call at
line 128: it validates its arguments and raises `ValueError` (here:
`none`) when they do not form a calendar date in years 1-9999. -/
def mkDatetime (y : Nat) (m d : Int) : Option PyDate :=
  if 1 ≤ y ∧ y ≤ 9999 ∧ 1 ≤ m ∧ m ≤ 12 ∧ 1 ≤ d ∧ d ≤ (daysInMonth y m.toNat : Int) then
    some ⟨y, m.toNat, d.toNat⟩
  else none

/-- Successor day with month/year rollover. -/
def nextDay (dt : PyDate) : PyDate :=
  if dt.day < daysInMonth dt.year dt.month then ⟨dt.year, dt.month, dt.day + 1⟩
  else if dt.month < 12 then ⟨dt.year, dt.month + 1, 1⟩
  else ⟨dt.year + 1, 1, 1⟩

/-- Model of `full_date + timedelta(days=n)` (lines 149 and 160). -/
def addDays : PyDate → Nat → PyDate
  | dt, 0 => dt
  | dt, n + 1 => addDays (nextDay dt) n

/-- Zero-padded two-digit rendering, as produced by `strftime` fields
`%d` and `%m` for the day/month values (always below 100) fed to them. -/
def pad2 (n : Nat) : String :=
  if n < 10 then "0" ++ Nat.repr n else Nat.repr n

/-- Model of `full_date.strftime("%d/%m/%Y")` (lines 129, 149, 160). -/
def strftimeDMY (dt : PyDate) : String :=
  pad2 dt.day ++ "/" ++ pad2 dt.month ++ "/" ++ Nat.repr dt.year

/-- One raw table row as built at lines 79-85 of `scrape_with_selenium`:
the five cell texts, already whitespace-stripped there. -/
structure RawRow where
  Date : String
  Weekday : String
  Min : String
  Max : String
  Rate : String
deriving DecidableEq, Repr

/-- The five field values of a raw row, in the dictionary's insertion
order (`row_data.values()` at line 88). -/
def RawRow.fields (r : RawRow) : List String :=
  [r.Date, r.Weekday, r.Min, r.Max, r.Rate]

/-- The raw row built from a list of cell texts at lines 79-85: the first
five cells, each whitespace-stripped. -/
def buildRawRow (cells : List String) : RawRow :=
  ⟨pyStrip (cells.getD 0 ""), pyStrip (cells.getD 1 ""), pyStrip (cells.getD 2 ""),
   pyStrip (cells.getD 3 ""), pyStrip (cells.getD 4 "")⟩

/-- The row-extraction filter of `scrape_with_selenium`, lines 75-91: each
table row is a list of cell texts; rows with fewer than five cells are
skipped, and of the rest a row is kept exactly when at least one of its
five stripped fields is non-empty (`if any(row_data.values())`). -/
def extractRows : List (List String) → List RawRow
  | [] => []
  | cells :: rest =>
    if cells.length ≥ 5 then
      let r := buildRawRow cells
      if r.fields.any (fun s => s ≠ "") then r :: extractRows rest
      else extractRows rest
    else extractRows rest

/-- One successfully parsed row, before calendar expansion: the full date
built at line 128 plus the carried-through weekday label and the three
numeric values (lines 124-134). -/
structure ParsedRow where
  date : PyDate
  weekday : String
  min : ℚ
  max : ℚ
  rate : ℚ
deriving DecidableEq, Repr

/-- The per-row parsing of `process_and_format_data`, lines 120-134.  A
`Date` that does not split on `/` into exactly two parts leaves the
`if len(date_parts) == 2` body unentered (no output, no error); any
exception from `int`, `datetime` or `float` is caught by the per-row
`except` at line 172.  Both roads yield `none` here. -/
def parseRow (year : Nat) (row : RawRow) : Option ParsedRow :=
  match pySplit row.Date '/' with
  | [a, b] => do
    let d ← pyInt a
    let m ← pyInt b
    let full ← mkDatetime year m d
    let mn ← pyFloat (stripCommas row.Min)
    let mx ← pyFloat (stripCommas row.Max)
    let rt ← pyFloat (stripCommas row.Rate)
    some ⟨full, row.Weekday, mn, mx, rt⟩
  | _ => none

/-- One fully formatted output record, as appended to `formatted_data`
(lines 137-168): the date rendered `DD/MM/YYYY` and the weekday label. -/
structure ForecastRecord where
  Date : String
  Weekday : String
  Min : ℚ
  Max : ℚ
  Rate : ℚ
deriving DecidableEq, Repr

/-- The main output row built at lines 137-143. -/
def mkMain (p : ParsedRow) : ForecastRecord :=
  ⟨strftimeDMY p.date, p.weekday, p.min, p.max, p.rate⟩

/-- The synthesized Saturday row of lines 148-157. -/
def mkSaturday (p : ParsedRow) : ForecastRecord :=
  ⟨strftimeDMY (addDays p.date 1), "Saturday", p.min, p.max, p.rate⟩

/-- The synthesized Sunday row of lines 159-168. -/
def mkSunday (p : ParsedRow) : ForecastRecord :=
  ⟨strftimeDMY (addDays p.date 2), "Sunday", p.min, p.max, p.rate⟩

/-- The Friday test of line 147: `row['Weekday'].lower() == 'friday'`. -/
def isFriday (p : ParsedRow) : Bool :=
  pyLower p.weekday == "friday"

/-- All records one parsed row contributes to `formatted_data`: the main
row (line 144), then — only when the weekday label is Friday — the two
weekend rows (lines 146-168). -/
def recordRows (p : ParsedRow) : List ForecastRecord :=
  if isFriday p then [mkMain p, mkSaturday p, mkSunday p] else [mkMain p]

/-- The calendar expansion over an already-parsed sequence: each record is
emitted in order, followed by its synthesized weekend rows if any. -/
def expandRecords : List ParsedRow → List ForecastRecord
  | [] => []
  | p :: ps => recordRows p ++ expandRecords ps

/-- `process_and_format_data` (lines 108-177): parse each raw row in
order, dropping the failing ones, and expand the survivors. -/
def process_and_format_data (year : Nat) (raw : List RawRow) : List ForecastRecord :=
  expandRecords (raw.filterMap (parseRow year))

/-- The records a single raw row contributes to the output of
`process_and_format_data`. -/
def rowRecords (year : Nat) (row : RawRow) : List ForecastRecord :=
  match parseRow year row with
  | some p => recordRows p
  | none => []

/-- The four files `save_data` may write: lines 201-203 and the fallback
name at line 275. -/
inductive OutputFile
  | excel
  | csv
  | json
  | fallbackCsv
deriving DecidableEq, Repr

/-- Which writes a run of `save_data` attempted and which completed. -/
structure SaveOutcome where
  attempted : List OutputFile
  completed : List OutputFile
deriving DecidableEq, Repr

/-- Control flow of `save_data`, lines 205-278.  Each file write either
succeeds or raises, abstracted by the `fail` oracle.  The Excel, CSV and
JSON writes run in this order inside ONE `try` block (lines 205-269); the
first one that raises jumps to the `except` at line 271, whose handler
attempts a single fallback CSV under the distinct name
`forecast_usd_fallback.csv` (line 275) and swallows even that failure
(line 277). -/
def save_data (fail : OutputFile → Bool) : SaveOutcome :=
  let fb : List OutputFile → List OutputFile → SaveOutcome := fun att comp =>
    if fail .fallbackCsv then ⟨att ++ [.fallbackCsv], comp⟩
    else ⟨att ++ [.fallbackCsv], comp ++ [.fallbackCsv]⟩
  if fail .excel then fb [.excel] []
  else if fail .csv then fb [.excel, .csv] [.excel]
  else if fail .json then fb [.excel, .csv, .json] [.excel, .csv]
  else ⟨[.excel, .csv, .json], [.excel, .csv, .json]⟩

/-! ## Helper lemmas -/

/-- Inversion of a successful `mkDatetime` call: the produced date carries
the requested year and the requested month/day, which lie in calendar
range. -/
theorem mkDatetime_inv (y : Nat) (m d : Int) (dt : PyDate)
    (h : mkDatetime y m d = some dt) :
    dt.year = y ∧ (dt.month : Int) = m ∧ (dt.day : Int) = d ∧
    1 ≤ dt.month ∧ dt.month ≤ 12 ∧ 1 ≤ dt.day ∧ dt.day ≤ daysInMonth y dt.month ∧
    1 ≤ y ∧ y ≤ 9999 := by
  unfold mkDatetime at h
  split at h
  · rename_i hb
    cases h
    obtain ⟨h1, h2, h3, h4, h5, h6⟩ := hb
    refine ⟨rfl, ?_, ?_, ?_, ?_, ?_, ?_, h1, h2⟩ <;> dsimp only <;> omega
  · cases h

/-- Months have at most 31 days. -/
theorem daysInMonth_le (y m : Nat) : daysInMonth y m ≤ 31 := by
  unfold daysInMonth
  split
  · split <;> omega
  · split <;> omega

/-- Inversion of a successful `parseRow` call: the raw `Date` split into
exactly two integer parts, those parts passed `datetime` validation, the
three numeric fields parsed, and the weekday label was carried through. -/
theorem parseRow_inv (year : Nat) (row : RawRow) (p : ParsedRow)
    (h : parseRow year row = some p) :
    ∃ a b d m, pySplit row.Date '/' = [a, b] ∧
      pyInt a = some d ∧ pyInt b = some m ∧
      mkDatetime year m d = some p.date ∧
      pyFloat (stripCommas row.Min) = some p.min ∧
      pyFloat (stripCommas row.Max) = some p.max ∧
      pyFloat (stripCommas row.Rate) = some p.rate ∧
      p.weekday = row.Weekday := by
  unfold parseRow at h
  split at h
  · rename_i a b heq
    simp only [Option.bind_eq_bind, Option.bind_eq_some, Option.some.injEq] at h
    obtain ⟨d, hd, m, hm, full, hdt, mn, hmn, mx, hmx, rt, hrt, hp⟩ := h
    rw [← hp]
    exact ⟨a, b, d, m, heq, hd, hm, hdt, hmn, hmx, hrt, rfl⟩
  · cases h

/-- A record in the expanded sequence comes from one of the parsed rows. -/
theorem mem_expandRecords (ps : List ParsedRow) (rec : ForecastRecord)
    (h : rec ∈ expandRecords ps) : ∃ p ∈ ps, rec ∈ recordRows p := by
  induction ps with
  | nil => cases h
  | cons q qs ih =>
    rw [expandRecords, List.mem_append] at h
    rcases h with h | h
    · exact ⟨q, List.mem_cons_self q qs, h⟩
    · obtain ⟨p, hp, hr⟩ := ih h
      exact ⟨p, List.mem_cons_of_mem q hp, hr⟩

/-- Two-digit zero-padded renderings of numbers below 100 parse back by
`int()` to the same value. -/
theorem pyInt_pad2 (n : Nat) (h : n < 100) : pyInt (pad2 n) = some n := by
  revert n h
  decide

/-- An unsigned decoded float value is non-negative. -/
theorem decValue_nonneg (m : Nat) (scale : Int) : 0 ≤ decValue false m scale := by
  unfold decValue
  rw [if_neg (by decide : ¬(false = true))]
  split
  · exact Rat.mkRat_nonneg (by positivity) _
  · exact Rat.mkRat_nonneg (by positivity) _

/-- A float field that does not begin with a minus sign after stripping
parses to a non-negative value. -/
theorem pyFloat_nonneg (s : String) (q : ℚ)
    (h : pyFloat s = some q) (hn : (trimChars s.toList).head? ≠ some '-') :
    0 ≤ q := by
  unfold pyFloat at h
  split at h
  · rename_i cs heq
    rw [heq] at hn
    simp at hn
  · rcases Option.map_eq_some'.mp h with ⟨me, hme, hq⟩
    rw [← hq]
    exact decValue_nonneg _ _
  · rcases Option.map_eq_some'.mp h with ⟨me, hme, hq⟩
    rw [← hq]
    exact decValue_nonneg _ _

/-- Unfolding of `expandRecords` on a cons cell. -/
theorem expandRecords_cons (p : ParsedRow) (ps : List ParsedRow) :
    expandRecords (p :: ps) = recordRows p ++ expandRecords ps := rfl

/-- `expandRecords` distributes over list append. -/
theorem expandRecords_append (l1 l2 : List ParsedRow) :
    expandRecords (l1 ++ l2) = expandRecords l1 ++ expandRecords l2 := by
  induction l1 with
  | nil => rfl
  | cons p ps ih => rw [List.cons_append, expandRecords_cons, expandRecords_cons, ih,
      List.append_assoc]

/-- Length of the calendar expansion: one output row per input row plus
two extra for each Friday-labeled row. -/
theorem expandRecords_length_eq (ps : List ParsedRow) :
    (expandRecords ps).length = ps.length + 2 * ps.countP (fun p => isFriday p) := by
  induction ps with
  | nil => rfl
  | cons p ps ih =>
    rw [expandRecords_cons, List.length_append, ih, List.countP_cons]
    cases hf : isFriday p <;> simp [recordRows, hf] <;> omega

/-- The first entries of a row group inside the expanded list: the main
record sits first, and for a Friday row the Saturday and Sunday records
sit at the next two positions. -/
theorem recordRows_append_getElem (p : ParsedRow) (l : List ForecastRecord) :
    (recordRows p ++ l)[0]? = some (mkMain p) ∧
    (isFriday p = true →
      (recordRows p ++ l)[1]? = some (mkSaturday p) ∧
      (recordRows p ++ l)[2]? = some (mkSunday p)) := by
  cases hf : isFriday p
  · refine ⟨?_, fun habs => absurd habs (by simp [hf])⟩
    rw [recordRows, if_neg (by simp [hf])]
    simp
  · refine ⟨?_, fun _ => ⟨?_, ?_⟩⟩ <;> rw [recordRows, if_pos hf] <;> simp

/-! ## Claim theorems -/

/-- C1 counterexample: a single Friday record expands to 3 records (the
original plus two synthesized), not the 1 + 3·1 = 4 the claimed formula
`len(output) = len(input) + 3 * count_of_fridays(input)` demands. -/
theorem expandRecords_length_counterexample :
    ¬ (∀ ps : List ParsedRow,
        (expandRecords ps).length = ps.length + 3 * ps.countP (fun p => isFriday p)) := by
  intro h
  exact absurd (h [⟨⟨2025, 7, 25⟩, "Friday", 4050, 4100, 4075⟩]) (by decide)

/-- C1 (amended): for every input sequence of parsed records, the calendar
expansion has exactly `N + 2 * (number of Friday-labeled records)` entries:
each Friday record is emitted once and synthesizes two weekend records. -/
theorem expandRecords_length (ps : List ParsedRow) :
    (expandRecords ps).length = ps.length + 2 * ps.countP (fun p => isFriday p) :=
  expandRecords_length_eq ps

/-- C3: every parsed record whose weekday label is Friday under
case-insensitive comparison is immediately followed in the expanded
sequence by two synthesized records dated one and two days later, labeled
Saturday and Sunday, with the Friday's min/max/rate; a record with any
other label contributes only itself. -/
theorem friday_weekend_synthesis (ps : List ParsedRow) (p : ParsedRow)
    (hmem : p ∈ ps) (hf : isFriday p = true) :
    (∃ l r, expandRecords ps =
      l ++ ⟨strftimeDMY p.date, p.weekday, p.min, p.max, p.rate⟩ ::
        ⟨strftimeDMY (addDays p.date 1), "Saturday", p.min, p.max, p.rate⟩ ::
        ⟨strftimeDMY (addDays p.date 2), "Sunday", p.min, p.max, p.rate⟩ :: r) ∧
    ∀ q : ParsedRow, isFriday q = false → recordRows q = [mkMain q] := by
  constructor
  · induction ps with
    | nil => cases hmem
    | cons x xs ih =>
      rcases List.mem_cons.mp hmem with hx | hx
      · refine ⟨[], expandRecords xs, ?_⟩
        rw [← hx, expandRecords, recordRows, if_pos hf]
        rfl
      · obtain ⟨l, r, hlr⟩ := ih hx
        exact ⟨recordRows x ++ l, r, by rw [expandRecords, hlr, List.append_assoc]⟩
  · intro q hq
    rw [recordRows, if_neg (by simp [hq])]

/-- C3 witness: the synthesis theorem applied to a concrete one-Friday
input. -/
theorem friday_weekend_synthesis_witness :
    (∃ l r, expandRecords [⟨⟨2025, 7, 25⟩, "Friday", 4050, 4100, 4075⟩] =
      l ++ ⟨strftimeDMY ⟨2025, 7, 25⟩, "Friday", 4050, 4100, 4075⟩ ::
        ⟨strftimeDMY (addDays ⟨2025, 7, 25⟩ 1), "Saturday", 4050, 4100, 4075⟩ ::
        ⟨strftimeDMY (addDays ⟨2025, 7, 25⟩ 2), "Sunday", 4050, 4100, 4075⟩ :: r) ∧
    ∀ q : ParsedRow, isFriday q = false → recordRows q = [mkMain q] :=
  friday_weekend_synthesis [⟨⟨2025, 7, 25⟩, "Friday", 4050, 4100, 4075⟩]
    ⟨⟨2025, 7, 25⟩, "Friday", 4050, 4100, 4075⟩ (List.mem_singleton.mpr rfl) (by decide)

/-- C2 counterexample: when only the spreadsheet (Excel) write raises, the
CSV and JSON writes are not attempted at all — they sit in the same `try`
block, so control jumps straight to the fallback handler. -/
theorem save_data_independence_counterexample :
    ¬ (∀ fail : OutputFile → Bool, fail .excel = true →
        OutputFile.csv ∈ (save_data fail).attempted ∧
        OutputFile.json ∈ (save_data fail).attempted) := by
  intro h
  exact absurd ((h (fun o => o == .excel) rfl).1) (by decide)

/-- C2 (amended): if the spreadsheet write raises, the CSV and JSON writes
are skipped (not attempted); instead one fallback plain-text write under
the distinct name `forecast_usd_fallback.csv` is attempted, which
completes exactly when it does not itself raise. -/
theorem save_data_fallback (fail : OutputFile → Bool) (h : fail .excel = true) :
    (save_data fail).attempted = [.excel, .fallbackCsv] ∧
    OutputFile.csv ∉ (save_data fail).attempted ∧
    OutputFile.json ∉ (save_data fail).attempted ∧
    (fail .fallbackCsv = false → (save_data fail).completed = [.fallbackCsv]) ∧
    (fail .fallbackCsv = true → (save_data fail).completed = []) := by
  unfold save_data
  rw [if_pos h]
  cases hf : fail .fallbackCsv
  · exact ⟨rfl, by decide, by decide, fun _ => rfl, fun hc => absurd hc (by decide)⟩
  · exact ⟨rfl, by decide, by decide, fun hc => absurd hc (by decide), fun _ => rfl⟩

/-- C2 witness: the amended failure policy evaluated when exactly the
Excel write raises. -/
theorem save_data_fallback_witness :
    (save_data (fun o => o == OutputFile.excel)).attempted =
        [.excel, .fallbackCsv] ∧
    OutputFile.csv ∉ (save_data (fun o => o == OutputFile.excel)).attempted ∧
    OutputFile.json ∉ (save_data (fun o => o == OutputFile.excel)).attempted ∧
    ((fun o => o == OutputFile.excel) OutputFile.fallbackCsv = false →
      (save_data (fun o => o == OutputFile.excel)).completed = [.fallbackCsv]) ∧
    ((fun o => o == OutputFile.excel) OutputFile.fallbackCsv = true →
      (save_data (fun o => o == OutputFile.excel)).completed = []) :=
  save_data_fallback (fun o => o == OutputFile.excel) rfl

/-- C4 counterexample: a source row already labeled Saturday passes
through the pipeline unchanged, so the output holds a Saturday-labeled
record although no Friday record exists at all, let alone one sharing its
min/max/rate. -/
theorem weekend_inheritance_counterexample :
    ¬ (∀ (year : Nat) (raw : List RawRow),
        ∀ rec ∈ process_and_format_data year raw,
          rec.Weekday = "Saturday" ∨ rec.Weekday = "Sunday" →
          ∃ p ∈ raw.filterMap (parseRow year), isFriday p = true ∧
            rec.Min = p.min ∧ rec.Max = p.max ∧ rec.Rate = p.rate) := by
  intro h
  have h2 := h 2025 [⟨"26/07", "Saturday", "1", "2", "3"⟩]
      ⟨"26/07/2025", "Saturday", 1, 2, 3⟩ (by decide) (Or.inl rfl)
  obtain ⟨p, hp, hf, _⟩ := h2
  rw [show ([⟨"26/07", "Saturday", "1", "2", "3"⟩] : List RawRow).filterMap
        (parseRow 2025) = [⟨⟨2025, 7, 26⟩, "Saturday", 1, 2, 3⟩] from by decide] at hp
  rw [List.mem_singleton.mp hp] at hf
  exact absurd hf (by decide)

/-- C4 (amended): every Saturday- or Sunday-labeled record in the output
either is the unchanged main record of a parsed source row that itself
carried that label, or is a weekend record synthesized from a
Friday-labeled row, in which case its min, max and rate equal that
Friday's. -/
theorem weekend_value_inheritance (year : Nat) (raw : List RawRow)
    (rec : ForecastRecord) (hmem : rec ∈ process_and_format_data year raw)
    (hw : rec.Weekday = "Saturday" ∨ rec.Weekday = "Sunday") :
    (∃ p ∈ raw.filterMap (parseRow year), rec = mkMain p ∧ p.weekday = rec.Weekday) ∨
    (∃ p ∈ raw.filterMap (parseRow year), isFriday p = true ∧
      (rec = mkSaturday p ∨ rec = mkSunday p) ∧
      rec.Min = p.min ∧ rec.Max = p.max ∧ rec.Rate = p.rate) := by
  obtain ⟨p, hp, hr⟩ := mem_expandRecords _ _ hmem
  rw [recordRows] at hr
  cases hf : isFriday p with
  | false =>
    rw [if_neg (by simp [hf])] at hr
    have hrec := List.mem_singleton.mp hr
    exact Or.inl ⟨p, hp, hrec, by rw [hrec]; rfl⟩
  | true =>
    rw [if_pos hf] at hr
    simp only [List.mem_cons, List.not_mem_nil, or_false] at hr
    rcases hr with hrec | hrec | hrec
    · exact Or.inl ⟨p, hp, hrec, by rw [hrec]; rfl⟩
    · exact Or.inr ⟨p, hp, hf, Or.inl hrec, by rw [hrec]; rfl, by rw [hrec]; rfl,
        by rw [hrec]; rfl⟩
    · exact Or.inr ⟨p, hp, hf, Or.inr hrec, by rw [hrec]; rfl, by rw [hrec]; rfl,
        by rw [hrec]; rfl⟩

/-- C4 witness: the amended inheritance theorem applied to the Saturday
record synthesized from a concrete Friday row. -/
theorem weekend_value_inheritance_witness :
    (∃ p ∈ ([⟨"25/07", "Friday", "4,050", "4,100", "4,075"⟩] : List RawRow).filterMap
        (parseRow 2025),
      (⟨"26/07/2025", "Saturday", 4050, 4100, 4075⟩ : ForecastRecord) = mkMain p ∧
      p.weekday = (⟨"26/07/2025", "Saturday", 4050, 4100, 4075⟩ : ForecastRecord).Weekday) ∨
    (∃ p ∈ ([⟨"25/07", "Friday", "4,050", "4,100", "4,075"⟩] : List RawRow).filterMap
        (parseRow 2025),
      isFriday p = true ∧
      ((⟨"26/07/2025", "Saturday", 4050, 4100, 4075⟩ : ForecastRecord) = mkSaturday p ∨
       (⟨"26/07/2025", "Saturday", 4050, 4100, 4075⟩ : ForecastRecord) = mkSunday p) ∧
      (⟨"26/07/2025", "Saturday", 4050, 4100, 4075⟩ : ForecastRecord).Min = p.min ∧
      (⟨"26/07/2025", "Saturday", 4050, 4100, 4075⟩ : ForecastRecord).Max = p.max ∧
      (⟨"26/07/2025", "Saturday", 4050, 4100, 4075⟩ : ForecastRecord).Rate = p.rate) :=
  weekend_value_inheritance 2025 [⟨"25/07", "Friday", "4,050", "4,100", "4,075"⟩]
    ⟨"26/07/2025", "Saturday", 4050, 4100, 4075⟩ (by decide) (Or.inl rfl)

/-- C5: the expansion is order-preserving: the main record of the `i`-th
parsed row sits at output position `i + 2 * (Fridays among earlier rows)`
— i.e. source rows appear in source order, each offset only by the weekend
rows synthesized for earlier Fridays — and a Friday's Saturday and Sunday
records occupy exactly the next two positions, regardless of date values. -/
theorem expansion_order_preserving (ps : List ParsedRow) (i : Nat) (h : i < ps.length) :
    (expandRecords ps)[i + 2 * (ps.take i).countP (fun p => isFriday p)]? =
        some (mkMain ps[i]) ∧
    (isFriday ps[i] = true →
      (expandRecords ps)[i + 2 * (ps.take i).countP (fun p => isFriday p) + 1]? =
          some (mkSaturday ps[i]) ∧
      (expandRecords ps)[i + 2 * (ps.take i).countP (fun p => isFriday p) + 2]? =
          some (mkSunday ps[i])) := by
  have hsplit : expandRecords ps =
      expandRecords (ps.take i) ++ (recordRows ps[i] ++ expandRecords (ps.drop (i + 1))) := by
    conv_lhs => rw [← List.take_append_drop i ps]
    rw [expandRecords_append, List.drop_eq_getElem_cons h, expandRecords_cons]
  have hlen : (expandRecords (ps.take i)).length =
      i + 2 * (ps.take i).countP (fun p => isFriday p) := by
    rw [expandRecords_length_eq, List.length_take, min_eq_left (Nat.le_of_lt h)]
  obtain ⟨h0, h12⟩ := recordRows_append_getElem ps[i] (expandRecords (ps.drop (i + 1)))
  refine ⟨?_, fun hf => ⟨?_, ?_⟩⟩
  · rw [hsplit, List.getElem?_append_right (le_of_eq hlen), hlen, Nat.sub_self]
    exact h0
  · rw [hsplit, List.getElem?_append_right (by rw [hlen]; omega), hlen,
      show i + 2 * (ps.take i).countP (fun p => isFriday p) + 1 -
        (i + 2 * (ps.take i).countP (fun p => isFriday p)) = 1 from by omega]
    exact (h12 hf).1
  · rw [hsplit, List.getElem?_append_right (by rw [hlen]; omega), hlen,
      show i + 2 * (ps.take i).countP (fun p => isFriday p) + 2 -
        (i + 2 * (ps.take i).countP (fun p => isFriday p)) = 2 from by omega]
    exact (h12 hf).2

/-- C5 witness: order preservation evaluated at index 1 of a two-row input
whose Friday comes second and carries an earlier date than the first row
(so the output is not globally date-sorted). -/
theorem expansion_order_preserving_witness :
    (expandRecords [⟨⟨2025, 7, 28⟩, "Monday", 1, 2, 3⟩,
        ⟨⟨2025, 7, 25⟩, "Friday", 4050, 4100, 4075⟩])[1 + 2 *
        (([⟨⟨2025, 7, 28⟩, "Monday", 1, 2, 3⟩,
          ⟨⟨2025, 7, 25⟩, "Friday", 4050, 4100, 4075⟩] : List ParsedRow).take 1).countP
          (fun p => isFriday p)]? =
      some (mkMain ([⟨⟨2025, 7, 28⟩, "Monday", 1, 2, 3⟩,
        ⟨⟨2025, 7, 25⟩, "Friday", 4050, 4100, 4075⟩] : List ParsedRow)[1]) ∧
    (isFriday ([⟨⟨2025, 7, 28⟩, "Monday", 1, 2, 3⟩,
        ⟨⟨2025, 7, 25⟩, "Friday", 4050, 4100, 4075⟩] : List ParsedRow)[1] = true →
      (expandRecords [⟨⟨2025, 7, 28⟩, "Monday", 1, 2, 3⟩,
          ⟨⟨2025, 7, 25⟩, "Friday", 4050, 4100, 4075⟩])[1 + 2 *
          (([⟨⟨2025, 7, 28⟩, "Monday", 1, 2, 3⟩,
            ⟨⟨2025, 7, 25⟩, "Friday", 4050, 4100, 4075⟩] : List ParsedRow).take 1).countP
            (fun p => isFriday p) + 1]? =
        some (mkSaturday ([⟨⟨2025, 7, 28⟩, "Monday", 1, 2, 3⟩,
          ⟨⟨2025, 7, 25⟩, "Friday", 4050, 4100, 4075⟩] : List ParsedRow)[1]) ∧
      (expandRecords [⟨⟨2025, 7, 28⟩, "Monday", 1, 2, 3⟩,
          ⟨⟨2025, 7, 25⟩, "Friday", 4050, 4100, 4075⟩])[1 + 2 *
          (([⟨⟨2025, 7, 28⟩, "Monday", 1, 2, 3⟩,
            ⟨⟨2025, 7, 25⟩, "Friday", 4050, 4100, 4075⟩] : List ParsedRow).take 1).countP
            (fun p => isFriday p) + 2]? =
        some (mkSunday ([⟨⟨2025, 7, 28⟩, "Monday", 1, 2, 3⟩,
          ⟨⟨2025, 7, 25⟩, "Friday", 4050, 4100, 4075⟩] : List ParsedRow)[1])) :=
  expansion_order_preserving
    [⟨⟨2025, 7, 28⟩, "Monday", 1, 2, 3⟩, ⟨⟨2025, 7, 25⟩, "Friday", 4050, 4100, 4075⟩]
    1 (by decide)

/-- C6: a raw row whose date does not split into exactly two integer
parts, or denotes an invalid calendar date, or has a non-numeric Min, Max
or Rate after comma stripping, contributes no record, and the remaining
rows are still processed. -/
theorem invalid_row_rejected (year : Nat) (row : RawRow) (rest : List RawRow)
    (h : (pySplit row.Date '/').length ≠ 2
       ∨ (∃ a b, pySplit row.Date '/' = [a, b] ∧ (pyInt a = none ∨ pyInt b = none))
       ∨ (∃ a b d m, pySplit row.Date '/' = [a, b] ∧ pyInt a = some d ∧
            pyInt b = some m ∧ mkDatetime year m d = none)
       ∨ pyFloat (stripCommas row.Min) = none
       ∨ pyFloat (stripCommas row.Max) = none
       ∨ pyFloat (stripCommas row.Rate) = none) :
    parseRow year row = none ∧
    process_and_format_data year (row :: rest) = process_and_format_data year rest := by
  have hnone : parseRow year row = none := by
    cases hp : parseRow year row with
    | none => rfl
    | some p =>
      obtain ⟨a, b, d, m, hs, hd, hm, hdt, hmn, hmx, hrt, _⟩ := parseRow_inv year row p hp
      rcases h with h | h | h | h | h | h
      · exact absurd (by rw [hs]; rfl) h
      · obtain ⟨a2, b2, hs2, hcase⟩ := h
        rw [hs] at hs2
        simp only [List.cons.injEq, and_true] at hs2
        obtain ⟨ha, hb⟩ := hs2
        rcases hcase with hc | hc
        · rw [← ha, hd] at hc
          cases hc
        · rw [← hb, hm] at hc
          cases hc
      · obtain ⟨a2, b2, d2, m2, hs2, hd2, hm2, hdt2⟩ := h
        rw [hs] at hs2
        simp only [List.cons.injEq, and_true] at hs2
        obtain ⟨ha, hb⟩ := hs2
        rw [← ha, hd] at hd2
        rw [← hb, hm] at hm2
        cases hd2
        cases hm2
        rw [hdt] at hdt2
        cases hdt2
      · rw [h] at hmn
        cases hmn
      · rw [h] at hmx
        cases hmx
      · rw [h] at hrt
        cases hrt
  refine ⟨hnone, ?_⟩
  rw [process_and_format_data, process_and_format_data, List.filterMap_cons, hnone]

/-- C6 witness: a row dated 31 February is rejected while the following
valid Friday row is still processed. -/
theorem invalid_row_rejected_witness :
    parseRow 2025 ⟨"31/02", "Friday", "4050", "4100", "4075"⟩ = none ∧
    process_and_format_data 2025 (⟨"31/02", "Friday", "4050", "4100", "4075"⟩ ::
        [⟨"25/07", "Friday", "1", "2", "3"⟩]) =
      process_and_format_data 2025 [⟨"25/07", "Friday", "1", "2", "3"⟩] :=
  invalid_row_rejected 2025 ⟨"31/02", "Friday", "4050", "4100", "4075"⟩
    [⟨"25/07", "Friday", "1", "2", "3"⟩]
    (Or.inr (Or.inr (Or.inl ⟨"31", "02", 31, 2, by decide, by decide, by decide, by decide⟩)))

/-- C7: for every raw row the parser accepts, the stored date's day and
month are exactly the two integers of the raw date string, the stored year
is the run's inferred year, and re-formatting as `DD/MM/YYYY` produces
zero-padded day and month components that parse back to the same values. -/
theorem parse_format_consistency (year : Nat) (row : RawRow) (p : ParsedRow)
    (h : parseRow year row = some p) :
    ∃ a b, pySplit row.Date '/' = [a, b] ∧
      pyInt a = some (p.date.day : Int) ∧
      pyInt b = some (p.date.month : Int) ∧
      p.date.year = year ∧
      (mkMain p).Date = pad2 p.date.day ++ "/" ++ pad2 p.date.month ++ "/" ++ Nat.repr year ∧
      pyInt (pad2 p.date.day) = some (p.date.day : Int) ∧
      pyInt (pad2 p.date.month) = some (p.date.month : Int) := by
  obtain ⟨a, b, d, m, hs, hd, hm, hdt, _, _, _, _⟩ := parseRow_inv year row p h
  obtain ⟨hy, hmth, hday, hm1, hm2, hd1, hd2, _, _⟩ := mkDatetime_inv year m d p.date hdt
  have hdlt : p.date.day < 100 := by
    have := daysInMonth_le year p.date.month
    omega
  have hmlt : p.date.month < 100 := by omega
  refine ⟨a, b, hs, ?_, ?_, hy, ?_, ?_, ?_⟩
  · rw [hday]
    exact hd
  · rw [hmth]
    exact hm
  · rw [← hy]
    rfl
  · exact pyInt_pad2 _ hdlt
  · exact pyInt_pad2 _ hmlt

/-- C7 witness: the round trip evaluated on the single-digit date `5/7`,
which the formatter re-emits zero-padded as `05/07/2025`. -/
theorem parse_format_consistency_witness :
    ∃ a b, pySplit "5/7" '/' = [a, b] ∧
      pyInt a = some ((5 : Nat) : Int) ∧
      pyInt b = some ((7 : Nat) : Int) ∧
      (2025 : Nat) = 2025 ∧
      (mkMain ⟨⟨2025, 7, 5⟩, "Monday", 1, 2, 3⟩).Date =
        pad2 5 ++ "/" ++ pad2 7 ++ "/" ++ Nat.repr 2025 ∧
      pyInt (pad2 5) = some ((5 : Nat) : Int) ∧
      pyInt (pad2 7) = some ((7 : Nat) : Int) :=
  parse_format_consistency 2025 ⟨"5/7", "Monday", "1", "2", "3"⟩
    ⟨⟨2025, 7, 5⟩, "Monday", 1, 2, 3⟩ (by decide)

/-- C8 counterexample: the parser accepts a negative `Min` field — nothing
in the code checks sign — so a parsed record can carry `min < 0`. -/
theorem parsed_nonneg_counterexample :
    ¬ (∀ (year : Nat) (row : RawRow) (p : ParsedRow),
        parseRow year row = some p → 0 ≤ p.min ∧ 0 ≤ p.max ∧ 0 ≤ p.rate) := by
  intro h
  have := (h 2025 ⟨"25/07", "Monday", "-1", "4100", "4075"⟩
      ⟨⟨2025, 7, 25⟩, "Monday", mkRat (-1) 1, 4100, 4075⟩ (by decide)).1
  exact absurd this (by decide)

/-- C8 (amended): the parsed min, max and rate are non-negative whenever
the comma-stripped raw fields do not begin with a minus sign after
whitespace stripping; the parser itself enforces no sign restriction. -/
theorem parsed_nonneg (year : Nat) (row : RawRow) (p : ParsedRow)
    (h : parseRow year row = some p)
    (hmn : (trimChars (stripCommas row.Min).toList).head? ≠ some '-')
    (hmx : (trimChars (stripCommas row.Max).toList).head? ≠ some '-')
    (hrt : (trimChars (stripCommas row.Rate).toList).head? ≠ some '-') :
    0 ≤ p.min ∧ 0 ≤ p.max ∧ 0 ≤ p.rate := by
  obtain ⟨a, b, d, m, _, _, _, _, h1, h2, h3, _⟩ := parseRow_inv year row p h
  exact ⟨pyFloat_nonneg _ _ h1 hmn, pyFloat_nonneg _ _ h2 hmx, pyFloat_nonneg _ _ h3 hrt⟩

/-- C8 witness: non-negativity of the three parsed values of a concrete
unsigned row. -/
theorem parsed_nonneg_witness :
    0 ≤ (⟨⟨2025, 7, 25⟩, "Friday", 4050, 4100, 4075⟩ : ParsedRow).min ∧
    0 ≤ (⟨⟨2025, 7, 25⟩, "Friday", 4050, 4100, 4075⟩ : ParsedRow).max ∧
    0 ≤ (⟨⟨2025, 7, 25⟩, "Friday", 4050, 4100, 4075⟩ : ParsedRow).rate :=
  parsed_nonneg 2025 ⟨"25/07", "Friday", "4,050", "4,100", "4,075"⟩
    ⟨⟨2025, 7, 25⟩, "Friday", 4050, 4100, 4075⟩ (by decide)
    (by decide) (by decide) (by decide)

/-- C9: a table row with at least five cells whose five stripped fields
are all empty is dropped — it contributes nothing to the extracted list
and the remaining rows are processed as if it were absent — while such a
row with at least one non-blank field is kept. -/
theorem blank_row_skipped (cells : List String) (rest : List (List String))
    (hlen : cells.length ≥ 5) :
    ((∀ s ∈ (buildRawRow cells).fields, s = "") →
      extractRows (cells :: rest) = extractRows rest) ∧
    ((∃ s ∈ (buildRawRow cells).fields, s ≠ "") →
      extractRows (cells :: rest) = buildRawRow cells :: extractRows rest) := by
  constructor
  · intro hall
    rw [extractRows, if_pos hlen, if_neg]
    simp only [List.any_eq_true, decide_eq_true_eq, not_exists]
    intro s
    rintro ⟨hmem, hne⟩
    exact hne (hall s hmem)
  · intro hex
    rw [extractRows, if_pos hlen, if_pos]
    simp only [List.any_eq_true, decide_eq_true_eq]
    exact hex

/-- C9 witness: a fully blank five-cell row is dropped while the next,
non-blank row is kept. -/
theorem blank_row_skipped_witness :
    ((∀ s ∈ (buildRawRow ["", " ", "", "", ""]).fields, s = "") →
      extractRows (["", " ", "", "", ""] :: [["25/07", "Fri", "1", "2", "3"]]) =
        extractRows [["25/07", "Fri", "1", "2", "3"]]) ∧
    ((∃ s ∈ (buildRawRow ["", " ", "", "", ""]).fields, s ≠ "") →
      extractRows (["", " ", "", "", ""] :: [["25/07", "Fri", "1", "2", "3"]]) =
        buildRawRow ["", " ", "", "", ""] :: extractRows [["25/07", "Fri", "1", "2", "3"]]) :=
  blank_row_skipped ["", " ", "", "", ""] [["25/07", "Fri", "1", "2", "3"]] (by decide)

/-- C10: per-row processing is atomic — the output of the whole pipeline
on `row :: rest` is the rows contributed by `row` followed by the output
on `rest`, and that contribution is either empty (parse failure), a single
main record, or the main record with its two weekend records; never a
partial group. -/
theorem row_atomicity (year : Nat) (row : RawRow) (rest : List RawRow) :
    process_and_format_data year (row :: rest) =
        rowRecords year row ++ process_and_format_data year rest ∧
    (rowRecords year row = [] ∨
      ∃ p, parseRow year row = some p ∧
        ((isFriday p = false ∧ rowRecords year row = [mkMain p]) ∨
         (isFriday p = true ∧
          rowRecords year row = [mkMain p, mkSaturday p, mkSunday p]))) := by
  constructor
  · rw [process_and_format_data, List.filterMap_cons, rowRecords]
    cases hp : parseRow year row
    · rfl
    · rfl
  · cases hp : parseRow year row with
    | none =>
      refine Or.inl ?_
      rw [rowRecords, hp]
    | some p =>
      refine Or.inr ⟨p, rfl, ?_⟩
      have hr : rowRecords year row = recordRows p := by rw [rowRecords, hp]
      cases hf : isFriday p
      · exact Or.inl ⟨rfl, by rw [hr, recordRows, if_neg (by simp [hf])]⟩
      · exact Or.inr ⟨rfl, by rw [hr, recordRows, if_pos hf]⟩

end UsdCop
